import Mathlib

/-!
Verification of the SmartScan EduPad Pro OMR grading core against its
specification.  The definitions below are a shallow embedding of the
Python source:

* `src/app.py` — `omr_detect_answers` (bubble filtering output, row
  clustering, fill-based selection, per-row option labels) and
  `calculate_score`, plus the per-student comparison loop that builds the
  result records.
* `src/utils/scorer.py` — `calculate_score` (identical logic to the copy
  in `app.py`: both count the key questions whose student entry equals
  the key entry and return `round(correct/total*100, 2)`, or `0` on an
  empty key).
* `src/utils/omr_processor.py` — `detect_bubbles` (the alternative
  detection routine whose labels come from the absolute horizontal band
  `x // 50` modulo 5).

Pixel-level OpenCV operations (decode, deskew, adaptive threshold,
contour extraction, per-box non-zero pixel counts) are library calls
with no algorithmic content of their own; they enter the model as
explicit inputs: the list of surviving candidates and a fill-ratio
function `Cand → ℚ` standing for `countNonZero(roi) / (w*h)`, and an
`Option`-valued decode result standing for `cv2.imread`.
-/

/-- A candidate bounding box `(x, y, w, h)` as produced by
`cv2.boundingRect` (all components are non-negative integers). -/
structure Cand where
  x : Nat
  y : Nat
  w : Nat
  h : Nat
deriving DecidableEq

/-- Distance between two `Nat` coordinates, i.e. `abs (a - b)` of the
Python integer subtraction. -/
def natDist (a b : Nat) : Nat := max a b - min a b

/-- `bubbles = sorted(bubbles, key=lambda b: b[1])` (app.py line 83):
stable sort by the `y` coordinate. -/
def sortY (bs : List Cand) : List Cand :=
  List.insertionSort (fun a b => a.y ≤ b.y) bs

/-- A clustered row: the candidate that opened the row (Python
`row[0]`, whose `y` is the row anchor) together with the candidates
appended after it. -/
abbrev OmrRow := Cand × List Cand

/-- The candidates of a row, in insertion order (`row[0]` first). -/
def rowElems (r : OmrRow) : List Cand := r.1 :: r.2

/-- The anchor `y` coordinates of the rows, in row order. -/
def anchors (rows : List OmrRow) : List Nat := rows.map (fun r => r.1.y)

/-- One iteration of the clustering loop (app.py lines 85-93): scan the
existing rows in order and append the bubble to the first row whose
anchor `row[0][1]` is within 20 of `b[1]`; if none matches, open a new
row at the end. -/
def placeBubble : List OmrRow → Cand → List OmrRow
  | [], b => [(b, [])]
  | r :: rs, b =>
    if natDist r.1.y b.y < 20 then (r.1, r.2 ++ [b]) :: rs
    else r :: placeBubble rs b

/-- The specification's clustering step (spec §4.3): compare the bubble
only against the most recently opened row (the last row of the list);
append there when within the distance threshold, otherwise open a new
row. -/
def placeRecent : List OmrRow → Cand → List OmrRow
  | [], b => [(b, [])]
  | [r], b =>
    if natDist r.1.y b.y < 20 then [(r.1, r.2 ++ [b])] else [r, (b, [])]
  | r :: rs, b => r :: placeRecent rs b

/-- The clustering loop over the `y`-sorted bubbles (app.py lines 83-93). -/
def clusterRows (bs : List Cand) : List OmrRow :=
  (sortY bs).foldl placeBubble []

/-- `row.sort(key=lambda b: b[0])` (app.py line 96): stable sort of one
row by the `x` coordinate. -/
def sortRowX (row : List Cand) : List Cand :=
  List.insertionSort (fun a b => a.x ≤ b.x) row

/-- The fully clustered rows: top-to-bottom row order, each row sorted
left-to-right (app.py lines 83-96). -/
def finalRows (bs : List Cand) : List (List Cand) :=
  (clusterRows bs).map (fun r => sortRowX (rowElems r))

/-- The fill threshold `0.2` of app.py lines 108 and 111, written with
`mkRat` so that it evaluates inside the kernel; `fillThreshold_eq`
below shows it equals `1 / 5`. -/
def fillThreshold : ℚ := mkRat 1 5

/-- The selection loop of app.py lines 101-113 over the fill ratios of
one row, in row order: state `(best_fill, best_opt)` starts at
`(0, None)` and is updated at index `i` exactly when
`fill > best_fill and fill > 0.2`. -/
def bestAux : List ℚ → Nat → ℚ → Option Nat → ℚ × Option Nat
  | [], _, b, o => (b, o)
  | f :: rest, i, b, o =>
    if b < f ∧ fillThreshold < f then bestAux rest (i + 1) f (some i)
    else bestAux rest (i + 1) b o

/-- The column index selected by the fill classifier for one row, given
the row's fill ratios (`None` when no candidate clears the threshold).
The Python loop stores `chr(ord('A') + oi)` directly; the model stores
the index `oi` and applies the same character map `optLabel` at the
point where the answer is inserted, which is equivalent because the map
is injective. -/
def bestOption (fills : List ℚ) : Option Nat :=
  (bestAux fills 0 0 none).2

/-- `chr(ord('A') + oi)` (app.py line 113). -/
def optLabel (oi : Nat) : Char := Char.ofNat ('A'.toNat + oi)

/-- The configured option alphabet (spec §6, default A-E). -/
def optionAlphabet : List Char := ['A', 'B', 'C', 'D', 'E']

/-- The answer-building loop of app.py lines 99-116: rows are numbered
from `qi` upward (`enumerate(rows, start=1)` at the top call), and a
row contributes the entry `(qi, chr(ord('A') + oi))` exactly when its
selection loop ends with `best_opt` set. -/
def buildAnswers (fill : Cand → ℚ) : Nat → List (List Cand) → List (Nat × Char)
  | _, [] => []
  | qi, row :: rest =>
    match bestOption (row.map fill) with
    | some oi => (qi, optLabel oi) :: buildAnswers fill (qi + 1) rest
    | none => buildAnswers fill (qi + 1) rest

/-- The body of `omr_detect_answers` after thresholding (app.py lines
79-122): return `{}` when no bubbles survived the geometric filters,
otherwise cluster the bubbles into rows and select at most one filled
mark per row.  `fill` abstracts the per-box fill-ratio computation
`cv2.countNonZero(roi) / (w * h)` of lines 104-105. -/
def detectAnswers (bubbles : List Cand) (fill : Cand → ℚ) : List (Nat × Char) :=
  if bubbles = [] then []
  else buildAnswers fill 1 (finalRows bubbles)

/-- The decode-and-detect stage of `omr_detect_answers` (app.py lines
30-122) with failures as explicit error values: `none` models
`cv2.imread` returning `None`, which the source turns into
`ValueError("Failed to load image. Check file integrity.")`. -/
def omr_detect_core (input : Option (List Cand × (Cand → ℚ))) :
    Except String (List (Nat × Char)) :=
  match input with
  | none => Except.error "Failed to load image. Check file integrity."
  | some (bubbles, fill) => Except.ok (detectAnswers bubbles fill)

/-- `omr_detect_answers` (app.py lines 24-131): the `try/except
Exception` wrapper maps every failure of the body to the empty map
`{}`. -/
def omr_detect_answers (input : Option (List Cand × (Cand → ℚ))) :
    List (Nat × Char) :=
  match omr_detect_core input with
  | Except.ok m => m
  | Except.error _ => []

/-- An answer map as consumed by the grader: question number to answer
string (Python dict, first binding wins on lookup). -/
abbrev AnswerMap := List (Nat × String)

/-- Python dict lookup `student_answers.get(q)` over the association
list. -/
def lookupQ (q : Nat) : AnswerMap → Option String
  | [] => none
  | (q', a) :: rest => if q' = q then some a else lookupQ q rest

/-- `correct = sum(1 for q in key_answers if key_answers[q] ==
student_answers.get(q, None))` (scorer.py line 5; identically
`q in student_answers and key_answers[q] == student_answers[q]` in
app.py line 143, since `None` equals no string). -/
def countCorrect : AnswerMap → AnswerMap → Nat
  | [], _ => 0
  | p :: rest, student =>
    (if lookupQ p.1 student = some p.2 then 1 else 0) + countCorrect rest student

/-- Modelled from the spec: the `wrong` count of the GradeRecord is not
computed anywhere in `src/` (the records carry only the score), so it
is taken from §4.5: a key question whose student entry is present,
non-empty and different from the key's label. -/
def countWrong : AnswerMap → AnswerMap → Nat
  | [], _ => 0
  | p :: rest, student =>
    (match lookupQ p.1 student with
     | some v => if v ≠ "" ∧ v ≠ p.2 then 1 else 0
     | none => 0) + countWrong rest student

/-- Modelled from the spec: the `blank` count of the GradeRecord is not
computed anywhere in `src/`, so it is taken from §4.5: a key question
with no student entry or an empty one. -/
def countBlank : AnswerMap → AnswerMap → Nat
  | [], _ => 0
  | p :: rest, student =>
    (match lookupQ p.1 student with
     | some v => if v = "" then 1 else 0
     | none => 1) + countBlank rest student

/-- Python `round(x, 2)`: round half to even at the second decimal. -/
def roundHalfEven (x : ℚ) : ℤ :=
  if x - ⌊x⌋ < 1 / 2 then ⌊x⌋
  else if 1 / 2 < x - ⌊x⌋ then ⌊x⌋ + 1
  else if ⌊x⌋ % 2 = 0 then ⌊x⌋ else ⌊x⌋ + 1

/-- Rounding a rational to two decimal places, Python style. -/
def round2 (x : ℚ) : ℚ := (roundHalfEven (100 * x) : ℚ) / 100

/-- `calculate_score` (scorer.py lines 1-6 and app.py lines 137-145):
`0` on an empty key, otherwise `round((correct / total) * 100, 2)`. -/
def calculate_score (key student : AnswerMap) : ℚ :=
  if key.length = 0 then 0
  else round2 ((countCorrect key student : ℚ) / (key.length : ℚ) * 100)

/-- One per-student result record of the comparison loop (app.py lines
230-235).  `confidence` is the value of the `np.random.uniform(85, 99)`
draw of line 226. -/
structure StudentRecord where
  sid : Nat
  score : ℚ
  confidence : ℚ
  status : String
deriving DecidableEq

/-- Body of one iteration of the comparison loop (app.py lines 222-235)
for student index `i` (0-based), given the confidence sample drawn for
this student. -/
def mkRecord (i : Nat) (key student : AnswerMap) (conf passing : ℚ) :
    StudentRecord :=
  { sid := i + 1
    score := calculate_score key student
    confidence := conf
    status := if passing ≤ calculate_score key student then "PASS" else "FAIL" }

/-- Helper for `runComparison`: fold the per-student loop with the
running 0-based index. -/
def runAux (key : AnswerMap) (passing : ℚ) (i : Nat) :
    List (AnswerMap × ℚ) → List StudentRecord
  | [] => []
  | (s, c) :: rest => mkRecord i key s c passing :: runAux key passing (i + 1) rest

/-- The comparison loop of app.py lines 220-245: one record per student
sheet, pairing each student's detected answer map with the confidence
sample drawn for it. -/
def runComparison (key : AnswerMap) (students : List AnswerMap)
    (confs : List ℚ) (passing : ℚ) : List StudentRecord :=
  runAux key passing 0 (students.zip confs)

/-- `candidates.sort(key=lambda c: (c[1], c[0]))` (omr_processor.py
line 39): stable sort by `(y, x)`. -/
def sortYX (cs : List Cand) : List Cand :=
  List.insertionSort
    (fun a b => a.y < b.y ∨ (a.y = b.y ∧ a.x ≤ b.x)) cs

/-- The option letter of `detect_bubbles` (omr_processor.py lines
58-67): the `elif` chain on `col % 5`. -/
def dbLetter (colMod : Nat) : Char :=
  match colMod with
  | 0 => 'A'
  | 1 => 'B'
  | 2 => 'C'
  | 3 => 'D'
  | _ => 'E'

/-- One iteration of the `detect_bubbles` grouping loop
(omr_processor.py lines 48-70).  The state is
`((current_row, current_col), accumulated questions-as-letters)`;
Python's `questions[len(questions)+1] = letter` always binds a fresh
key `len+1`, so the dict is exactly the list of letters in insertion
order. -/
def dbStep (st : (Int × Int) × List Char) (b : Cand) : (Int × Int) × List Char :=
  let row : Nat := b.y / 50
  let col : Nat := b.x / 50
  let acc1 :=
    if ((row : Int) - st.1.1).natAbs > 1 ∨ ((col : Int) - st.1.2).natAbs > 1 then
      st.2 ++ ['A']
    else st.2
  (((row : Int), (col : Int)), acc1 ++ [dbLetter (col % 5)])

/-- Index the accumulated letters as a question map `{1: _, 2: _, ...}`. -/
def numberQuestions : Nat → List Char → List (Nat × Char)
  | _, [] => []
  | q, c :: rest => (q, c) :: numberQuestions (q + 1) rest

/-- `detect_bubbles` (omr_processor.py lines 38-71) from the filtered
candidate list onward: sort by `(y, x)`, then run the grouping loop
with `current_row = current_col = -1`. -/
def detect_bubbles (cands : List Cand) : List (Nat × Char) :=
  numberQuestions 1 ((sortYX cands).foldl dbStep ((-1, -1), [])).2

/-- The grading example of spec §8: `key = {1:"A", 2:"B", 3:"C"}`. -/
def exKey : AnswerMap := [(1, "A"), (2, "B"), (3, "C")]

/-- The grading example of spec §8: `student = {1:"A", 2:"D", 3:""}`. -/
def exStudent : AnswerMap := [(1, "A"), (2, "D"), (3, "")]

/-- The clustering example of spec §8: five square candidates at the
same `y` with `x = 10, 40, 70, 100, 130`. -/
def exampleFive : List Cand :=
  [⟨10, 0, 10, 10⟩, ⟨40, 0, 10, 10⟩, ⟨70, 0, 10, 10⟩,
   ⟨100, 0, 10, 10⟩, ⟨130, 0, 10, 10⟩]

/-- A single candidate whose fill ratio is below the threshold: an
"all blank" sheet with one detected bubble. -/
def blankCand : Cand := ⟨0, 0, 10, 10⟩

/-- Six equally spaced candidates on one horizontal line: a single
clustered row of six. -/
def sixBubbles : List Cand :=
  [⟨0, 0, 10, 10⟩, ⟨30, 0, 10, 10⟩, ⟨60, 0, 10, 10⟩,
   ⟨90, 0, 10, 10⟩, ⟨120, 0, 10, 10⟩, ⟨150, 0, 10, 10⟩]

/-- A fill function marking only the sixth bubble of `sixBubbles`
(fill ratio 9/10 there, 0 elsewhere). -/
def fillSixth (c : Cand) : ℚ := if c.x = 150 then mkRat 9 10 else 0

/-- The single mark of the C1 failing input: one candidate at
`x = 60, y = 0`, i.e. absolute horizontal band `60 // 50 = 1`. -/
def candAt60 : Cand := ⟨60, 0, 10, 10⟩

/-- Characterization of the selection loop of app.py lines 101-113,
for arbitrary loop state: either no element improves on the state (and
the state is returned unchanged), or the result is the leftmost
occurrence of the maximum, which strictly exceeds both the incoming
`best_fill` and the fill threshold. -/
theorem bestAux_main (R : List ℚ) : ∀ (i : Nat) (b : ℚ) (o : Option Nat),
    ((∀ f ∈ R, f ≤ b ∨ f ≤ fillThreshold) ∧ bestAux R i b o = (b, o))
    ∨ (∃ j, ∃ hj : j < R.length,
        bestAux R i b o = (R.get ⟨j, hj⟩, some (i + j)) ∧
        b < R.get ⟨j, hj⟩ ∧ fillThreshold < R.get ⟨j, hj⟩ ∧
        (∀ k, ∀ hk : k < R.length, R.get ⟨k, hk⟩ ≤ R.get ⟨j, hj⟩) ∧
        (∀ k, ∀ hk : k < R.length, k < j → R.get ⟨k, hk⟩ < R.get ⟨j, hj⟩)) := by
  induction R with
  | nil =>
    intro i b o
    left
    exact ⟨by simp, rfl⟩
  | cons f R ih =>
    intro i b o
    by_cases hc : b < f ∧ fillThreshold < f
    · rw [show bestAux (f :: R) i b o = bestAux R (i + 1) f (some i) by
        simp [bestAux, hc]]
      rcases ih (i + 1) f (some i) with ⟨hall, heq⟩ | ⟨j, hj, heq, hbf, hth, hmax, hstrict⟩
      · right
        refine ⟨0, by simp, ?_, hc.1, hc.2, ?_, ?_⟩
        · rw [heq]; simp
        · intro k hk
          match k, hk with
          | 0, _ => simp
          | k' + 1, hk =>
            have hk' : k' < R.length := Nat.lt_of_succ_lt_succ hk
            have := hall (R.get ⟨k', hk'⟩) (R.get_mem _ _)
            simp only [List.get_cons_succ, List.get_cons_zero]
            rcases this with h1 | h1
            · exact h1
            · exact le_trans h1 (le_of_lt hc.2)
        · intro k hk hk0
          omega
      · right
        refine ⟨j + 1, Nat.succ_lt_succ hj, ?_, ?_, ?_, ?_, ?_⟩
        · rw [heq]
          simp only [List.get_cons_succ]
          congr 2
          omega
        · simp only [List.get_cons_succ]
          exact lt_trans hc.1 hbf
        · simp only [List.get_cons_succ]
          exact hth
        · intro k hk
          match k, hk with
          | 0, _ => simpa using le_of_lt hbf
          | k' + 1, hk =>
            have hk' : k' < R.length := Nat.lt_of_succ_lt_succ hk
            simpa using hmax k' hk'
        · intro k hk hkj
          match k, hk with
          | 0, _ => simpa using hbf
          | k' + 1, hk =>
            have hk' : k' < R.length := Nat.lt_of_succ_lt_succ hk
            simpa using hstrict k' hk' (Nat.lt_of_succ_lt_succ hkj)
    · rw [show bestAux (f :: R) i b o = bestAux R (i + 1) b o by
        simp [bestAux, hc]]
      have hf : f ≤ b ∨ f ≤ fillThreshold := by
        rcases not_and_or.mp hc with h | h
        · exact Or.inl (le_of_not_lt h)
        · exact Or.inr (le_of_not_lt h)
      rcases ih (i + 1) b o with ⟨hall, heq⟩ | ⟨j, hj, heq, hbf, hth, hmax, hstrict⟩
      · left
        refine ⟨?_, heq⟩
        intro g hg
        rcases List.mem_cons.mp hg with rfl | hg
        · exact hf
        · exact hall g hg
      · right
        refine ⟨j + 1, Nat.succ_lt_succ hj, ?_, ?_, ?_, ?_, ?_⟩
        · rw [heq]
          simp only [List.get_cons_succ]
          congr 2
          omega
        · simp only [List.get_cons_succ]
          exact hbf
        · simp only [List.get_cons_succ]
          exact hth
        · intro k hk
          match k, hk with
          | 0, _ =>
            simp only [List.get_cons_succ, List.get_cons_zero]
            rcases hf with h1 | h1
            · exact le_trans h1 (le_of_lt hbf)
            · exact le_trans h1 (le_of_lt hth)
          | k' + 1, hk =>
            have hk' : k' < R.length := Nat.lt_of_succ_lt_succ hk
            simpa using hmax k' hk'
        · intro k hk hkj
          match k, hk with
          | 0, _ =>
            simp only [List.get_cons_succ, List.get_cons_zero]
            rcases hf with h1 | h1
            · exact lt_of_le_of_lt h1 hbf
            · exact lt_of_le_of_lt h1 hth
          | k' + 1, hk =>
            have hk' : k' < R.length := Nat.lt_of_succ_lt_succ hk
            simpa using hstrict k' hk' (Nat.lt_of_succ_lt_succ hkj)

/-- Specialization of `bestAux_main` to the initial state `(0, None)`:
the selected index is the leftmost occurrence of the maximum fill
ratio, present exactly when that maximum strictly exceeds the
threshold. -/
theorem bestOption_cases (fills : List ℚ) :
    (bestOption fills = none ∧
      ∀ k, ∀ hk : k < fills.length, fills.get ⟨k, hk⟩ ≤ fillThreshold)
    ∨ (∃ j, ∃ hj : j < fills.length,
        bestOption fills = some j ∧
        fillThreshold < fills.get ⟨j, hj⟩ ∧
        (∀ k, ∀ hk : k < fills.length, fills.get ⟨k, hk⟩ ≤ fills.get ⟨j, hj⟩) ∧
        (∀ k, ∀ hk : k < fills.length, k < j → fills.get ⟨k, hk⟩ < fills.get ⟨j, hj⟩)) := by
  rcases bestAux_main fills 0 0 none with ⟨hall, heq⟩ | ⟨j, hj, heq, _, hth, hmax, hstrict⟩
  · left
    refine ⟨by simp [bestOption, heq], ?_⟩
    intro k hk
    rcases hall (fills.get ⟨k, hk⟩) (fills.get_mem _ _) with h | h
    · calc fills.get ⟨k, hk⟩ ≤ 0 := h
        _ ≤ fillThreshold := by norm_num [fillThreshold]
    · exact h
  · right
    exact ⟨j, hj, by simp [bestOption, heq], hth, hmax, hstrict⟩

/-- A selected index is a valid position in the row. -/
theorem bestOption_some_lt {fills : List ℚ} {oi : Nat}
    (h : bestOption fills = some oi) : oi < fills.length := by
  rcases bestOption_cases fills with ⟨hn, _⟩ | ⟨j, hj, hs, _⟩
  · rw [hn] at h
    cases h
  · rw [hs] at h
    cases h
    exact hj

/-- In a chain whose links grow by at least 20, the head is at most the
last element. -/
theorem chain_head_le_getLast :
    ∀ (l : List Nat) (x a : Nat),
      List.Chain' (fun p q => p + 20 ≤ q) (x :: l) →
      (x :: l).getLast? = some a → x ≤ a := by
  intro l
  induction l with
  | nil =>
    intro x a _ hl
    simp at hl
    omega
  | cons y l ih =>
    intro x a hch hl
    rw [List.chain'_cons] at hch
    rw [List.getLast?_cons_cons] at hl
    have := ih y a hch.2 hl
    omega

/-- The spec-style clustering step either leaves the anchor list
unchanged (the bubble joined the last row) or appends the bubble's `y`
as a new anchor, in which case the old last anchor was at least the
distance threshold away. -/
theorem placeRecent_anchors (b : Cand) :
    ∀ (rows : List OmrRow),
      anchors (placeRecent rows b) = anchors rows
      ∨ (anchors (placeRecent rows b) = anchors rows ++ [b.y] ∧
          ∀ a, (anchors rows).getLast? = some a → ¬ natDist a b.y < 20) := by
  intro rows
  induction rows with
  | nil =>
    right
    constructor
    · simp [placeRecent, anchors]
    · intro a ha
      simp [anchors] at ha
  | cons r rs ih =>
    cases rs with
    | nil =>
      by_cases hc : natDist r.1.y b.y < 20
      · left
        simp [placeRecent, hc, anchors]
      · right
        constructor
        · simp [placeRecent, hc, anchors]
        · intro a ha
          simp [anchors] at ha
          subst ha
          exact hc
    | cons r' rs' =>
      have hpr : placeRecent (r :: r' :: rs') b = r :: placeRecent (r' :: rs') b := rfl
      have hcc : anchors (r' :: rs') = r'.1.y :: anchors rs' := rfl
      rw [hpr]
      have hanch : anchors (r :: placeRecent (r' :: rs') b) =
          r.1.y :: anchors (placeRecent (r' :: rs') b) := rfl
      rw [hanch]
      rcases ih with h | ⟨h, hcond⟩
      · left
        rw [h]
        rfl
      · right
        constructor
        · rw [h]
          rfl
        · intro a ha
          rw [show anchors (r :: r' :: rs') = r.1.y :: r'.1.y :: anchors rs' from rfl,
            List.getLast?_cons_cons] at ha
          exact hcond a (by rw [hcc]; exact ha)

/-- Under the invariant of the clustering loop — anchors separated by
at least the distance threshold and the incoming bubble below the last
anchor — the source's first-matching-row scan (app.py lines 85-93)
places the bubble exactly where the spec's most-recent-row rule does:
no earlier row's anchor can be within the threshold. -/
theorem placeEq (b : Cand) :
    ∀ (rows : List OmrRow),
      List.Chain' (fun p q => p + 20 ≤ q) (anchors rows) →
      (∀ a, (anchors rows).getLast? = some a → a ≤ b.y) →
      placeBubble rows b = placeRecent rows b := by
  intro rows
  induction rows with
  | nil =>
    intro _ _
    rfl
  | cons r rs ih =>
    cases rs with
    | nil =>
      intro _ _
      by_cases hc : natDist r.1.y b.y < 20
      · simp [placeBubble, placeRecent, hc]
      · simp [placeBubble, placeRecent, hc]
    | cons r' rs' =>
      intro hch hlast
      have hcc : anchors (r :: r' :: rs') = r.1.y :: r'.1.y :: anchors rs' := rfl
      rw [hcc] at hch hlast
      obtain ⟨a, ha⟩ : ∃ a, (r'.1.y :: anchors rs').getLast? = some a := by
        cases hgl : (r'.1.y :: anchors rs').getLast? with
        | none => simp at hgl
        | some a => exact ⟨a, rfl⟩
      have hle : r'.1.y ≤ a :=
        chain_head_le_getLast _ _ _ (List.chain'_cons.mp hch).2 ha
      have hab : a ≤ b.y := hlast a (by rw [List.getLast?_cons_cons]; exact ha)
      have hgap : r.1.y + 20 ≤ r'.1.y := (List.chain'_cons.mp hch).1
      have hfar : ¬ natDist r.1.y b.y < 20 := by
        simp only [natDist]
        omega
      have h1 : placeBubble (r :: r' :: rs') b = r :: placeBubble (r' :: rs') b := by
        simp [placeBubble, hfar]
      have h2 : placeRecent (r :: r' :: rs') b = r :: placeRecent (r' :: rs') b := rfl
      rw [h1, h2]
      congr 1
      apply ih
      · exact (List.chain'_cons.mp hch).2
      · intro a' ha'
        apply hlast
        rw [List.getLast?_cons_cons]
        exact ha'

/-- The clustering step keeps the last anchor at or below the placed
bubble's `y`. -/
theorem placeRecent_last (b : Cand) (rows : List OmrRow)
    (h : ∀ a, (anchors rows).getLast? = some a → a ≤ b.y) :
    ∀ a', (anchors (placeRecent rows b)).getLast? = some a' → a' ≤ b.y := by
  intro a' ha'
  rcases placeRecent_anchors b rows with heq | ⟨heq, _⟩
  · rw [heq] at ha'
    exact h a' ha'
  · rw [heq, List.getLast?_concat] at ha'
    cases ha'
    exact le_refl _

/-- The clustering step preserves the anchor-separation invariant. -/
theorem placeRecent_chain (b : Cand) (rows : List OmrRow)
    (hch : List.Chain' (fun p q => p + 20 ≤ q) (anchors rows))
    (h : ∀ a, (anchors rows).getLast? = some a → a ≤ b.y) :
    List.Chain' (fun p q => p + 20 ≤ q) (anchors (placeRecent rows b)) := by
  rcases placeRecent_anchors b rows with heq | ⟨heq, hcond⟩
  · rw [heq]
    exact hch
  · rw [heq, List.chain'_append]
    refine ⟨hch, List.chain'_singleton _, ?_⟩
    intro x hx y hy
    simp only [List.head?_cons, Option.mem_def, Option.some.injEq] at hy
    subst hy
    have h1 : x ≤ b.y := h x (Option.mem_def.mp hx)
    have h2 : ¬ natDist x b.y < 20 := hcond x (Option.mem_def.mp hx)
    simp only [natDist] at h2
    omega

/-- Main clustering lemma: folding the `y`-sorted bubbles through the
source's loop coincides with folding them through the spec's
most-recent-row rule, and the resulting anchors are separated by at
least the distance threshold. -/
theorem foldl_cluster (pending : List Cand) :
    ∀ (rows : List OmrRow),
      List.Chain' (fun p q => p + 20 ≤ q) (anchors rows) →
      (∀ p ∈ pending, ∀ a, (anchors rows).getLast? = some a → a ≤ p.y) →
      List.Sorted (fun a b : Cand => a.y ≤ b.y) pending →
      pending.foldl placeBubble rows = pending.foldl placeRecent rows ∧
      List.Chain' (fun p q => p + 20 ≤ q)
        (anchors (pending.foldl placeBubble rows)) := by
  induction pending with
  | nil =>
    intro rows hch _ _
    exact ⟨rfl, hch⟩
  | cons b rest ih =>
    intro rows hch hpend hsort
    have hb : ∀ a, (anchors rows).getLast? = some a → a ≤ b.y :=
      hpend b (List.mem_cons_self _ _)
    have heq : placeBubble rows b = placeRecent rows b := placeEq b rows hch hb
    have hch' := placeRecent_chain b rows hch hb
    have hlast' := placeRecent_last b rows hb
    rw [List.foldl_cons, List.foldl_cons, heq]
    have hsort' := List.sorted_cons.mp hsort
    apply ih (placeRecent rows b) hch'
    · intro p hp a' ha'
      exact le_trans (hlast' a' ha') (hsort'.1 p hp)
    · exact hsort'.2

/-- Claim C5: for every list of candidates sorted by vertical
position, the clusterer behaves as the greedy most-recently-opened-row
rule (the source's scan over all rows agrees with it), rows come out
ordered top-to-bottom by their anchors, and the five-candidate example
of spec §8 clusters into exactly one row of five whose column positions
carry the labels A, B, C, D, E left-to-right. -/
theorem claim_C5_clusterer (bs : List Cand)
    (hs : List.Sorted (fun a b : Cand => a.y ≤ b.y) bs) :
    bs.foldl placeBubble [] = bs.foldl placeRecent [] ∧
    List.Chain' (· ≤ ·) (anchors (bs.foldl placeBubble [])) ∧
    finalRows exampleFive = [exampleFive] ∧
    (finalRows exampleFive).map (fun row => (List.range row.length).map optLabel)
      = [['A', 'B', 'C', 'D', 'E']] := by
  obtain ⟨h1, h2⟩ := foldl_cluster bs []
    (by simp [anchors]) (by intro p _ a ha; simp [anchors] at ha) hs
  refine ⟨h1, h2.imp ?_, by decide, by decide⟩
  intro a b h
  omega

/-- Witness for claim C5 at the concrete five-candidate example. -/
theorem claim_C5_clusterer_witness :
    List.Sorted (fun a b : Cand => a.y ≤ b.y) exampleFive ∧
    (exampleFive.foldl placeBubble [] = exampleFive.foldl placeRecent [] ∧
     List.Chain' (· ≤ ·) (anchors (exampleFive.foldl placeBubble [])) ∧
     finalRows exampleFive = [exampleFive] ∧
     (finalRows exampleFive).map (fun row => (List.range row.length).map optLabel)
       = [['A', 'B', 'C', 'D', 'E']]) :=
  ⟨by decide, claim_C5_clusterer exampleFive (by decide)⟩

/-- The fill threshold is the source's `0.2`. -/
theorem fillThreshold_eq : fillThreshold = 1 / 5 := by
  rw [fillThreshold, Rat.mkRat_eq_div]
  norm_num

/-- Claim C4: per row, the fill classifier selects the candidate with
the maximum fill ratio if and only if that maximum strictly exceeds the
fill threshold (a ratio exactly equal to the threshold is never
selected); when no ratio exceeds the threshold the row is blank
(`none`); and on exactly equal maxima the leftmost (lowest index)
candidate is chosen — every earlier candidate is strictly below the
selected one's ratio. -/
theorem claim_C4_fill_selection (fills : List ℚ) :
    ((bestOption fills).isSome ↔
      ∃ k, ∃ hk : k < fills.length, fillThreshold < fills.get ⟨k, hk⟩) ∧
    ((bestOption fills = none ∧
        ∀ k, ∀ hk : k < fills.length, fills.get ⟨k, hk⟩ ≤ fillThreshold)
      ∨ (∃ j, ∃ hj : j < fills.length, bestOption fills = some j ∧
          fillThreshold < fills.get ⟨j, hj⟩ ∧
          (∀ k, ∀ hk : k < fills.length, fills.get ⟨k, hk⟩ ≤ fills.get ⟨j, hj⟩) ∧
          (∀ k, ∀ hk : k < fills.length, k < j →
            fills.get ⟨k, hk⟩ < fills.get ⟨j, hj⟩))) := by
  rcases bestOption_cases fills with ⟨hn, hall⟩ | ⟨j, hj, hs, hth, hmax, hstrict⟩
  · constructor
    · rw [hn]
      simp only [Option.isSome_none, Bool.false_eq_true, false_iff]
      rintro ⟨k, hk, hlt⟩
      exact absurd (hall k hk) (not_le.mpr hlt)
    · exact Or.inl ⟨hn, hall⟩
  · constructor
    · rw [hs]
      simp only [Option.isSome_some, true_iff]
      exact ⟨j, hj, hth⟩
    · exact Or.inr ⟨j, hj, hs, hth, hmax, hstrict⟩

/-- Question numbers emitted by the answer-building loop are at least
the starting number. -/
theorem buildAnswers_key_lb (fill : Cand → ℚ) :
    ∀ (rows : List (List Cand)) (qi q : Nat) (c : Char),
      (q, c) ∈ buildAnswers fill qi rows → qi ≤ q := by
  intro rows
  induction rows with
  | nil =>
    intro qi q c h
    simp [buildAnswers] at h
  | cons row rest ih =>
    intro qi q c h
    rw [buildAnswers] at h
    cases hb : bestOption (row.map fill) with
    | some oi =>
      rw [hb] at h
      rcases List.mem_cons.mp h with heq | hmem
      · have : q = qi := by
          simpa using congrArg Prod.fst heq
        omega
      · have := ih (qi + 1) q c hmem
        omega
    | none =>
      rw [hb] at h
      have := ih (qi + 1) q c h
      omega

/-- Question numbers emitted by the answer-building loop are strictly
increasing, hence every question receives at most one label. -/
theorem buildAnswers_keys_sorted (fill : Cand → ℚ) :
    ∀ (rows : List (List Cand)) (qi : Nat),
      List.Pairwise (· < ·) ((buildAnswers fill qi rows).map Prod.fst) := by
  intro rows
  induction rows with
  | nil =>
    intro qi
    simp [buildAnswers]
  | cons row rest ih =>
    intro qi
    rw [buildAnswers]
    cases hb : bestOption (row.map fill) with
    | some oi =>
      simp only [List.map_cons]
      rw [List.pairwise_cons]
      constructor
      · intro q' hq'
        obtain ⟨⟨q2, c2⟩, hmem, rfl⟩ := List.mem_map.mp hq'
        have := buildAnswers_key_lb fill rest (qi + 1) q2 c2 hmem
        simp only []
        omega
      · exact ih (qi + 1)
    | none =>
      exact ih (qi + 1)

/-- Every emitted label comes from a selected column of one of the
rows, through the alphabet map `optLabel`. -/
theorem buildAnswers_label (fill : Cand → ℚ) :
    ∀ (rows : List (List Cand)) (qi q : Nat) (c : Char),
      (q, c) ∈ buildAnswers fill qi rows →
      ∃ row ∈ rows, ∃ oi, bestOption (row.map fill) = some oi ∧ c = optLabel oi := by
  intro rows
  induction rows with
  | nil =>
    intro qi q c h
    simp [buildAnswers] at h
  | cons row rest ih =>
    intro qi q c h
    rw [buildAnswers] at h
    cases hb : bestOption (row.map fill) with
    | some oi =>
      rw [hb] at h
      rcases List.mem_cons.mp h with heq | hmem
      · refine ⟨row, List.mem_cons_self _ _, oi, hb, ?_⟩
        simpa using congrArg Prod.snd heq
      · obtain ⟨row', hrow', oi', hoi', hc⟩ := ih (qi + 1) q c hmem
        exact ⟨row', List.mem_cons_of_mem _ hrow', oi', hoi', hc⟩
    | none =>
      rw [hb] at h
      obtain ⟨row', hrow', oi', hoi', hc⟩ := ih (qi + 1) q c h
      exact ⟨row', List.mem_cons_of_mem _ hrow', oi', hoi', hc⟩

/-- The first five column labels are exactly the option alphabet. -/
theorem optLabel_mem (oi : Nat) (h : oi < 5) : optLabel oi ∈ optionAlphabet := by
  interval_cases oi <;> decide

/-- Claim C8, counterexample: a single clustered row of six candidates
whose sixth bubble is filled receives the label 'F', outside the
configured A-E alphabet, so the claim as stated is false. -/
theorem claim_C8_label_alphabet_counterexample :
    detectAnswers sixBubbles fillSixth = [(1, 'F')] ∧ 'F' ∉ optionAlphabet := by
  decide

/-- Claim C8, amended: for every produced answer map, at most one
label is assigned per question, unconditionally (question numbers are
strictly increasing); and every assigned label lies within the A-E
alphabet whenever no clustered row holds more than five candidates (a
row with more can yield labels beyond 'E', as the counterexample
shows). -/
theorem claim_C8_label_alphabet_amended (bubbles : List Cand) (fill : Cand → ℚ) :
    ((detectAnswers bubbles fill).map Prod.fst).Nodup ∧
    ((∀ row ∈ finalRows bubbles, row.length ≤ 5) →
      ∀ p ∈ detectAnswers bubbles fill, p.2 ∈ optionAlphabet) := by
  by_cases hb : bubbles = []
  · simp [detectAnswers, hb]
  · rw [detectAnswers, if_neg hb]
    constructor
    · exact (buildAnswers_keys_sorted fill (finalRows bubbles) 1).imp
        (fun h => ne_of_lt h)
    · intro h5
      rintro ⟨q, c⟩ hmem
      obtain ⟨row, hrow, oi, hoi, rfl⟩ :=
        buildAnswers_label fill (finalRows bubbles) 1 q c hmem
      have hlt : oi < row.length := by
        have := bestOption_some_lt hoi
        simpa using this
      show optLabel oi ∈ optionAlphabet
      exact optLabel_mem oi (lt_of_lt_of_le hlt (h5 row hrow))

/-- Witness for the amended claim C8 at the five-candidate sheet,
discharging the row-size hypothesis of the alphabet conjunct. -/
theorem claim_C8_label_alphabet_witness :
    (∀ row ∈ finalRows exampleFive, row.length ≤ 5) ∧
    (((detectAnswers exampleFive fillSixth).map Prod.fst).Nodup ∧
      ∀ p ∈ detectAnswers exampleFive fillSixth, p.2 ∈ optionAlphabet) :=
  ⟨by decide,
    (claim_C8_label_alphabet_amended exampleFive fillSixth).1,
    (claim_C8_label_alphabet_amended exampleFive fillSixth).2 (by decide)⟩

/-- Lookup misses every association list not holding the key. -/
theorem lookupQ_eq_none (q : Nat) :
    ∀ (m : AnswerMap), q ∉ m.map Prod.fst → lookupQ q m = none := by
  intro m
  induction m with
  | nil =>
    intro _
    rfl
  | cons p rest ih =>
    intro h
    obtain ⟨q', a⟩ := p
    rw [List.map_cons, List.mem_cons] at h
    push_neg at h
    rw [lookupQ, if_neg (fun heq => h.1 heq.symm), ih h.2]

/-- Entries appended after the student map are invisible to lookups
that miss them. -/
theorem lookupQ_append_right_none (q : Nat) (extra : AnswerMap)
    (he : lookupQ q extra = none) :
    ∀ (student : AnswerMap), lookupQ q (student ++ extra) = lookupQ q student := by
  intro student
  induction student with
  | nil => simpa using he
  | cons p rest ih =>
    obtain ⟨q', a⟩ := p
    rw [List.cons_append, lookupQ, lookupQ]
    by_cases hq : q' = q
    · rw [if_pos hq, if_pos hq]
    · rw [if_neg hq, if_neg hq, ih]

/-- Extra student answers on questions outside the key do not change
the correct count: the key defines the universe of graded questions. -/
theorem countCorrect_append_extra (student extra : AnswerMap) :
    ∀ (key : AnswerMap), (∀ p ∈ extra, p.1 ∉ key.map Prod.fst) →
      countCorrect key (student ++ extra) = countCorrect key student := by
  intro key
  induction key with
  | nil =>
    intro _
    rfl
  | cons p rest ih =>
    intro hx
    have hrest := ih (fun p' hp' hmem =>
      hx p' hp' (List.mem_cons_of_mem _ hmem))
    have hhead : lookupQ p.1 extra = none := by
      apply lookupQ_eq_none
      intro hmem
      obtain ⟨p', hp', hfst⟩ := List.mem_map.mp hmem
      exact hx p' hp'
        (hfst ▸ List.mem_map_of_mem Prod.fst (List.mem_cons_self _ _))
    rw [countCorrect, countCorrect,
      lookupQ_append_right_none p.1 extra hhead student, hrest]

/-- Partition of the key: when every key label is non-empty, each key
question is counted by exactly one of correct, wrong (present,
non-empty, differing) and blank (absent or empty), per spec §4.5. -/
theorem grade_partition (student : AnswerMap) :
    ∀ (key : AnswerMap), (∀ p ∈ key, p.2 ≠ "") →
      countCorrect key student + countWrong key student + countBlank key student
        = key.length := by
  intro key
  induction key with
  | nil =>
    intro _
    rfl
  | cons p rest ih =>
    intro h
    obtain ⟨q, a⟩ := p
    have ha : a ≠ "" := h (q, a) (List.mem_cons_self _ _)
    have ih' := ih (fun p hp => h p (List.mem_cons_of_mem _ hp))
    rw [countCorrect, countWrong, countBlank, List.length_cons]
    cases hl : lookupQ (q, a).1 student with
    | none =>
      simp only [reduceCtorEq, if_false]
      simp
      omega
    | some v =>
      by_cases hv : v = ""
      · subst hv
        have hne : ¬ ((some "" : Option String) = some (q, a).2) := by
          simpa using fun heq => ha heq.symm
        simp [hne, ha.symm]
        omega
      · by_cases hva : v = a
        · subst hva
          simp [hv]
          omega
        · have hne : ¬ ((some v : Option String) = some (q, a).2) := by
            simpa using hva
          simp [hne, hv, hva]
          omega

/-- Python `round(10000/3, …)` at two decimals: the fractional part
1/3 is below one half, so the value rounds down to 3333. -/
theorem roundHalfEven_example : roundHalfEven ((10000 : ℚ) / 3) = 3333 := by
  have hfl : ⌊(10000 : ℚ) / 3⌋ = 3333 := by norm_num [Int.floor_eq_iff]
  rw [roundHalfEven, hfl]
  norm_num

/-- The spec §8 grading example evaluates to the accuracy 33.33. -/
theorem score_example : calculate_score exKey exStudent = 3333 / 100 := by
  have hc : countCorrect exKey exStudent = 1 := by decide
  have hlen : exKey.length = 3 := by decide
  rw [calculate_score, hlen, hc, if_neg (by norm_num), round2]
  have harg : (100 : ℚ) * (((1 : ℕ) : ℚ) / ((3 : ℕ) : ℚ) * 100) = 10000 / 3 := by
    push_cast
    norm_num
  rw [harg, roundHalfEven_example]
  norm_num

/-- Claim C2: the grader's score is 100·correct/total rounded to two
decimals with score 0 on an empty key; questions present only in the
student map are ignored; and the §8 example gives correct = 1,
wrong = 1, blank = 1, total = 3 and accuracy 33.33. -/
theorem claim_C2_score_formula (key student extra : AnswerMap)
    (hx : ∀ p ∈ extra, p.1 ∉ key.map Prod.fst) :
    calculate_score key (student ++ extra) = calculate_score key student ∧
    calculate_score [] student = 0 ∧
    countCorrect exKey exStudent = 1 ∧
    countWrong exKey exStudent = 1 ∧
    countBlank exKey exStudent = 1 ∧
    exKey.length = 3 ∧
    calculate_score exKey exStudent = 3333 / 100 := by
  refine ⟨?_, rfl, by decide, by decide, by decide, by decide, score_example⟩
  rw [calculate_score, calculate_score, countCorrect_append_extra student extra key hx]

/-- Witness for claim C2 with the extra student answer `{4: "E"}`. -/
theorem claim_C2_score_formula_witness :
    (∀ p ∈ ([(4, "E")] : AnswerMap), p.1 ∉ exKey.map Prod.fst) ∧
    (calculate_score exKey (exStudent ++ [(4, "E")]) = calculate_score exKey exStudent ∧
     calculate_score [] exStudent = 0 ∧
     countCorrect exKey exStudent = 1 ∧
     countWrong exKey exStudent = 1 ∧
     countBlank exKey exStudent = 1 ∧
     exKey.length = 3 ∧
     calculate_score exKey exStudent = 3333 / 100) :=
  ⟨by decide, claim_C2_score_formula exKey exStudent [(4, "E")] (by decide)⟩

/-- Claim C6: grading conservation — for every key whose labels are
non-empty option letters (the data-model invariant of spec §3),
correct + wrong + blank equals total equals the size of the key. -/
theorem claim_C6_conservation (key student : AnswerMap)
    (hkey : ∀ p ∈ key, p.2 ≠ "") :
    countCorrect key student + countWrong key student + countBlank key student
      = key.length :=
  grade_partition student key hkey

/-- Witness for claim C6 at the §8 grading example. -/
theorem claim_C6_conservation_witness :
    (∀ p ∈ exKey, p.2 ≠ "") ∧
    (countCorrect exKey exStudent + countWrong exKey exStudent +
      countBlank exKey exStudent = exKey.length) :=
  ⟨by decide, claim_C6_conservation exKey exStudent (by decide)⟩

/-- The comparison loop emits exactly one record per student/sample
pair. -/
theorem runAux_length (key : AnswerMap) (passing : ℚ) :
    ∀ (l : List (AnswerMap × ℚ)) (i : Nat),
      (runAux key passing i l).length = l.length := by
  intro l
  induction l with
  | nil =>
    intro i
    rfl
  | cons p rest ih =>
    intro i
    obtain ⟨s, c⟩ := p
    rw [runAux, List.length_cons, List.length_cons, ih]

/-- Every record produced by the comparison loop is a `mkRecord` of
some student map and confidence sample. -/
theorem runAux_mem (key : AnswerMap) (passing : ℚ) :
    ∀ (l : List (AnswerMap × ℚ)) (i : Nat) (r : StudentRecord),
      r ∈ runAux key passing i l → ∃ i' s c, r = mkRecord i' key s c passing := by
  intro l
  induction l with
  | nil =>
    intro i r h
    simp [runAux] at h
  | cons p rest ih =>
    intro i r h
    obtain ⟨s, c⟩ := p
    rw [runAux] at h
    rcases List.mem_cons.mp h with heq | hmem
    · exact ⟨i, s, c, heq⟩
    · exact ih (i + 1) r hmem

/-- Claim C3, counterexample: invoked with the empty key map, the
grader does not signal any error — `calculate_score` returns 0 and the
run produces a full result record for the student, so the claim as
stated is false. -/
theorem claim_C3_empty_key_counterexample :
    runComparison [] [exStudent] [90] 60 ≠ [] ∧
    runComparison [] [exStudent] [90] 60
      = [{ sid := 1, score := 0, confidence := 90, status := "FAIL" }] := by
  constructor
  · decide
  · decide

/-- Claim C3, amended: with an empty key the run is not aborted —
every student still yields a record, each with score 0 (the empty-key
guard of `calculate_score`). -/
theorem claim_C3_empty_key_amended (students : List AnswerMap)
    (confs : List ℚ) (passing : ℚ) :
    (runComparison [] students confs passing).length
      = min students.length confs.length ∧
    ∀ r ∈ runComparison [] students confs passing, r.score = 0 := by
  constructor
  · rw [runComparison, runAux_length, List.length_zip]
  · intro r hr
    obtain ⟨i', s, c, rfl⟩ := runAux_mem [] passing _ 0 r hr
    show calculate_score [] s = 0
    rfl

/-- Claim C9, counterexample: with identical key, student and
configuration, two runs whose confidence draws differ produce
different result records, so records do depend on the random
`np.random.uniform(85, 99)` sample. -/
theorem claim_C9_confidence_counterexample :
    runComparison exKey [exStudent] [90] 60
      ≠ runComparison exKey [exStudent] [91] 60 := by
  intro h
  have h1 : (runComparison exKey [exStudent] [90] 60).head?.map
      StudentRecord.confidence = some 90 := rfl
  have h2 : (runComparison exKey [exStudent] [91] 60).head?.map
      StudentRecord.confidence = some 91 := rfl
  rw [h] at h1
  rw [h1] at h2
  have := Option.some.inj h2
  norm_num at this

/-- Claim C9, amended: the score and pass/fail status of a record are
deterministic functions of the key, student map and passing threshold,
but the record's confidence field is exactly the random sample drawn
for that student. -/
theorem claim_C9_confidence_amended (i : Nat) (key student : AnswerMap)
    (c1 c2 passing : ℚ) :
    (mkRecord i key student c1 passing).score
      = (mkRecord i key student c2 passing).score ∧
    (mkRecord i key student c1 passing).status
      = (mkRecord i key student c2 passing).status ∧
    (mkRecord i key student c1 passing).confidence = c1 :=
  ⟨rfl, rfl, rfl⟩

/-- Claim C7, counterexample: the no-candidates outcome is the same
value `{}` as the answer map of a sheet whose only candidate is below
the fill threshold (an all-blank sheet), so callers cannot distinguish
the two. -/
theorem claim_C7_no_candidates_counterexample :
    detectAnswers [] (fun _ => 0) = detectAnswers [blankCand] (fun _ => 0) := by
  decide

/-- Claim C7, amended: zero surviving candidates yield the empty map
as an ordinary return value (no exception), but the same empty map is
produced for a sheet whose candidates are all unfilled. -/
theorem claim_C7_no_candidates_amended (fill : Cand → ℚ) (c : Cand) :
    detectAnswers [] fill = [] ∧ detectAnswers [c] (fun _ => 0) = [] :=
  ⟨rfl, rfl⟩

/-- Claim C10: every failure of the detection body — including a
decode failure, `cv2.imread` returning `None` — is caught by the
`except Exception` wrapper and yields the empty map, which is the very
value returned for a sheet with no detected marks. -/
theorem claim_C10_no_exception (input : Option (List Cand × (Cand → ℚ)))
    (e : String) (h : omr_detect_core input = Except.error e) :
    omr_detect_answers input = [] ∧
    omr_detect_answers input = detectAnswers [] (fun _ => 0) := by
  have h1 : omr_detect_answers input = [] := by
    rw [omr_detect_answers, h]
  exact ⟨h1, by rw [h1]; rfl⟩

/-- Witness for claim C10 at the failed-decode input. -/
theorem claim_C10_no_exception_witness :
    omr_detect_core none = Except.error "Failed to load image. Check file integrity." ∧
    (omr_detect_answers none = [] ∧
     omr_detect_answers none = detectAnswers [] (fun _ => 0)) :=
  ⟨rfl, claim_C10_no_exception none _ rfl⟩

/-- Claim C1: evaluation at the failing input.  A sheet with a single
mark at `x = 60` (the second absolute horizontal band) is labeled by
`detect_bubbles` from `(x // 50) % 5`, yielding `{1: 'A', 2: 'B'}` — a
phantom question and the mark labeled 'B' — whereas the per-row
column-index mapping required by the claim (and implemented by the
app.py pipeline) yields `{1: 'A'}` with the mark labeled 'A'. -/
theorem claim_C1_label_source :
    detect_bubbles [candAt60] = [(1, 'A'), (2, 'B')] ∧
    detectAnswers [candAt60] (fun _ => mkRat 9 10) = [(1, 'A')] := by
  decide
